import Mathlib

/-!
Verification of the TeX-like box model of `internal/latex/tex/tex.go`
(package `tex` of sbinet-gonum/plot).

The Go code works on `float64` dimensions; here a float value is modelled
as a rational together with the IEEE special values `+Inf`, `-Inf`, `NaN`
(type `F` below).  Machine rounding is not modelled: the claims under
study are about the exact algebra of the packing and scaling routines
(`0.7` and `1/0.7` are exact reciprocals in this model, which is what the
spec's "within 1e-9 relative tolerance" appeals to).
-/

namespace Tex

/-- Model of a Go `float64` dimension value: a rational, or one of the
IEEE special values.  Negative zero is identified with zero. -/
inductive F where
  | nan  : F
  | pinf : F
  | ninf : F
  | fin  : ℚ → F
deriving DecidableEq, Repr

/-- `SHRINK_FACTOR = 0.7` from the source. -/
def SHRINK_FACTOR : ℚ := 7 / 10

/-- `GROW_FACTOR = 1.0 / SHRINK_FACTOR` from the source. -/
def GROW_FACTOR : ℚ := 10 / 7

/-- `NUM_SIZE_LEVELS = 6` from the source. -/
def NUM_SIZE_LEVELS : Int := 6

namespace F

/-- IEEE negation. -/
def neg : F → F
  | nan => nan
  | pinf => ninf
  | ninf => pinf
  | fin a => fin (-a)

/-- IEEE addition (`+Inf + -Inf = NaN`). -/
def add : F → F → F
  | nan, _ => nan
  | _, nan => nan
  | pinf, ninf => nan
  | ninf, pinf => nan
  | pinf, _ => pinf
  | _, pinf => pinf
  | ninf, _ => ninf
  | _, ninf => ninf
  | fin a, fin b => fin (a + b)

/-- IEEE subtraction, `x - y = x + (-y)`. -/
def sub (x y : F) : F := x.add y.neg

/-- Multiplication by a rational constant (only ever used with the
positive constants `SHRINK_FACTOR` and `GROW_FACTOR`). -/
def mulQ (q : ℚ) : F → F
  | nan => nan
  | pinf => if 0 < q then pinf else if q < 0 then ninf else nan
  | ninf => if 0 < q then ninf else if q < 0 then pinf else nan
  | fin a => fin (q * a)

/-- Go's `math.Max` (NaN dominates, then `+Inf`). -/
def max : F → F → F
  | nan, _ => nan
  | _, nan => nan
  | pinf, _ => pinf
  | _, pinf => pinf
  | ninf, b => b
  | a, ninf => a
  | fin a, fin b => fin (a ⊔ b)

/-- IEEE division as Go computes it (`x/±0` for finite non-zero `x` is
`±Inf` with the numerator's sign; `0/0` and `Inf/Inf` are NaN). -/
def div : F → F → F
  | nan, _ => nan
  | _, nan => nan
  | pinf, pinf => nan
  | pinf, ninf => nan
  | ninf, pinf => nan
  | ninf, ninf => nan
  | pinf, fin b => if b < 0 then ninf else pinf
  | ninf, fin b => if b < 0 then pinf else ninf
  | fin _, pinf => fin 0
  | fin _, ninf => fin 0
  | fin a, fin b =>
      if b = 0 then (if a = 0 then nan else if 0 < a then pinf else ninf)
      else fin (a / b)

/-- Go's `math.IsInf(x, 0)`: true for either infinity. -/
def isInf : F → Bool
  | pinf => true
  | ninf => true
  | _ => false

/-- `true` exactly for finite values. -/
def isFin : F → Bool
  | fin _ => true
  | _ => false

/-- IEEE `<` (false whenever NaN is involved). -/
def blt : F → F → Bool
  | nan, _ => false
  | _, nan => false
  | pinf, _ => false
  | _, pinf => true
  | _, ninf => false
  | ninf, _ => true
  | fin a, fin b => decide (a < b)

/-- IEEE `==` (false whenever NaN is involved). -/
def beq : F → F → Bool
  | pinf, pinf => true
  | ninf, ninf => true
  | fin a, fin b => decide (a = b)
  | _, _ => false

end F

/-- The fields of the Go `Box` struct. -/
structure BoxS where
  size : Int
  width : F
  height : F
  depth : F
deriving DecidableEq, Repr

/-- The fields of the Go `Char` struct (the rune is modelled by its
code point; `fontSize` is the nested `font.size` field). -/
structure CharS where
  c : Nat
  size : Int
  width : F
  height : F
  depth : F
  fontSize : F
  dpi : F
  math : Bool
deriving DecidableEq, Repr

/-- The glue-setting state of a Go `List` (`set`, `sign`, `order`,
`ratio`).  The order is always in `0..3` in the source (it indexes
length-4 total slices), hence `Fin 4` here. -/
structure GlueSet where
  set : F
  sign : Int
  order : Fin 4
  ratio : F
deriving DecidableEq, Repr

/-- The own fields of a Go `List` (its box, shift and glue state); the
children are carried separately by the `Node` constructors. -/
structure ListS where
  box : BoxS
  shift : F
  glue : GlueSet
deriving DecidableEq, Repr

/-- The fields of the Go `Glue` struct.  `NewGlue`/`newGlue` only ever
construct orders `0..3`, which index length-4 total slices. -/
structure GlueS where
  size : Int
  width : F
  stretch : F
  stretchOrder : Fin 4
  shrink : F
  shrinkOrder : Fin 4
deriving DecidableEq, Repr

/-- The fields of the Go `Kern` struct. -/
structure KernS where
  size : Int
  width : F
deriving DecidableEq, Repr

/-- The closed family of box-model node kinds of the source.  `Rule`
carries exactly a `Box` (its backend handle plays no part in layout);
`HRule`/`VRule` wrap a `Rule`; `Accent` wraps a `Char`. -/
inductive Node where
  | box : BoxS → Node
  | vbox (size : Int) (height depth : F) : Node
  | hbox (size : Int) (width : F) : Node
  | char : CharS → Node
  | accent : CharS → Node
  | list : ListS → List Node → Node
  | hlist : ListS → List Node → Node
  | vlist : ListS → List Node → Node
  | rule : BoxS → Node
  | hrule : BoxS → Node
  | vrule : BoxS → Node
  | glue : GlueS → Node
  | kern : KernS → Node
deriving Repr

/-- The four stretch (or shrink) totals, one per order of infinity:
the Go `make([]float64, 4)` slices of `hpack`/`vpack`. -/
structure Totals where
  t0 : F
  t1 : F
  t2 : F
  t3 : F
deriving DecidableEq, Repr

def Totals.get (t : Totals) : Fin 4 → F
  | ⟨0, _⟩ => t.t0
  | ⟨1, _⟩ => t.t1
  | ⟨2, _⟩ => t.t2
  | ⟨3, _⟩ => t.t3

/-- `totals[i] += x`. -/
def Totals.addAt (t : Totals) : Fin 4 → F → Totals
  | ⟨0, _⟩, x => { t with t0 := t.t0.add x }
  | ⟨1, _⟩, x => { t with t1 := t.t1.add x }
  | ⟨2, _⟩, x => { t with t2 := t.t2.add x }
  | ⟨3, _⟩, x => { t with t3 := t.t3.add x }

def Totals.zero : Totals := ⟨F.fin 0, F.fin 0, F.fin 0, F.fin 0⟩

/-- The running totals threaded through `hpack`/`vpack`: the three
dimension accumulators and the two order-indexed glue-total slices. -/
structure PackAcc where
  width : F
  height : F
  depth : F
  stretch : Totals
  shrink : Totals
deriving DecidableEq, Repr

/-- The all-zero initial accumulator of `hpack`/`vpack`. -/
def PackAcc.init : PackAcc :=
  ⟨F.fin 0, F.fin 0, F.fin 0, Totals.zero, Totals.zero⟩

/-- `Box.hpackDims`: add the width; skip the height/depth maxima when the
box's own height or depth is infinite. -/
def boxHpackDims (b : BoxS) (a : PackAcc) : PackAcc :=
  let a1 := { a with width := a.width.add b.width }
  if b.height.isInf || b.depth.isInf then a1
  else { a1 with height := a.height.max b.height, depth := a.depth.max b.depth }

/-- `Char.hpackDims` (no infinity check in the source). -/
def charHpackDims (c : CharS) (a : PackAcc) : PackAcc :=
  { a with width := a.width.add c.width,
           height := a.height.max c.height,
           depth := a.depth.max c.depth }

/-- `List.hpackDims`: add the box width; when the box's height/depth are
finite, max in `height-shift` and `depth+shift`. -/
def listHpackDims (ls : ListS) (a : PackAcc) : PackAcc :=
  let a1 := { a with width := a.width.add ls.box.width }
  if ls.box.height.isInf || ls.box.depth.isInf then a1
  else { a1 with height := a.height.max (ls.box.height.sub ls.shift),
                 depth := a.depth.max (ls.box.depth.add ls.shift) }

/-- `Box.vpackDims`: `height += depth + box.height; depth = box.depth`,
then max in the width unless it is infinite. -/
def boxVpackDims (b : BoxS) (a : PackAcc) : PackAcc :=
  { a with height := a.height.add (a.depth.add b.height),
           depth := b.depth,
           width := if b.width.isInf then a.width else a.width.max b.width }

/-- The `hpackDims` contribution of each node kind, from the source's
per-type methods. -/
def Node.hpackDims : Node → PackAcc → PackAcc
  | .box b, a => boxHpackDims b a
  | .vbox _ h d, a =>
      if h.isInf || d.isInf then a
      else { a with height := a.height.max h, depth := a.depth.max d }
  | .hbox _ w, a => { a with width := a.width.add w }
  | .char c, a => charHpackDims c a
  | .accent c, a => charHpackDims c a
  | .list ls _, a => listHpackDims ls a
  | .hlist ls _, a => listHpackDims ls a
  | .vlist ls _, a => listHpackDims ls a
  | .rule b, a => boxHpackDims b a
  | .hrule b, a => boxHpackDims b a
  | .vrule b, a => boxHpackDims b a
  | .glue g, a =>
      { a with width := a.width.add g.width,
               stretch := a.stretch.addAt g.stretchOrder g.stretch,
               shrink := a.shrink.addAt g.shrinkOrder g.shrink }
  | .kern k, a => { a with width := a.width.add k.width }

/-- The `vpackDims` contribution of each node kind; `none` models the
source's panics for `Char` ("Char node in VList") and `Accent`
("Accent node in VList"). -/
def Node.vpackDims : Node → PackAcc → Option PackAcc
  | .box b, a => some (boxVpackDims b a)
  | .vbox _ h d, a =>
      some { a with height := a.height.add (a.depth.add h),
                    depth := d,
                    width := a.width.max (F.fin 0) }
  | .hbox _ w, a =>
      some { a with height := a.height.add a.depth,
                    depth := F.fin 0,
                    width := if w.isInf then a.width else a.width.max w }
  | .char _, _ => none
  | .accent _, _ => none
  | .list ls _, a => some (boxVpackDims ls.box a)
  | .hlist ls _, a => some (boxVpackDims ls.box a)
  | .vlist ls _, a => some (boxVpackDims ls.box a)
  | .rule b, a => some (boxVpackDims b a)
  | .hrule b, a => some (boxVpackDims b a)
  | .vrule b, a => some (boxVpackDims b a)
  | .glue g, a =>
      some { a with height := (a.height.add a.depth).add g.width,
                    depth := F.fin 0,
                    stretch := a.stretch.addAt g.stretchOrder g.stretch,
                    shrink := a.shrink.addAt g.shrinkOrder g.shrink }
  | .kern k, a =>
      some { a with height := a.height.add (a.depth.add k.width),
                    depth := F.fin 0 }

/-- The child loop of `HList.hpack`. -/
def hpackFold (ch : List Node) (a : PackAcc) : PackAcc :=
  ch.foldl (fun a n => n.hpackDims a) a

/-- The child loop of `VList.vpack`; aborts (`none`) at the first child
whose `vpackDims` panics. -/
def vpackFold : List Node → PackAcc → Option PackAcc
  | [], a => some a
  | n :: ns, a =>
      match n.vpackDims a with
      | none => none
      | some a2 => vpackFold ns a2

/-- The highest order of infinity with a non-zero total (order 0 when all
totals are zero).  The non-zero test is the IEEE `!=` of the source. -/
def glueOrder (t : Totals) : Fin 4 :=
  if (t.t3.beq (F.fin 0)) = false then 3
  else if (t.t2.beq (F.fin 0)) = false then 2
  else if (t.t1.beq (F.fin 0)) = false then 1
  else 0

/-- Modelled from the spec: the source's `List.setGlue` body is the
unimplemented stub `panic("FIXME")`; spec §4.4/§9 define the intended
semantics and declare §4.4 authoritative over the stub.  It selects the
highest order with a non-zero total, keeps the given sign, and sets the
ratio to `excess / totals[order]` — computed even when that total is
zero (IEEE division then yields an infinite ratio, the "overfull"
signal); the diagnostic message is not part of the result. -/
def ListS.setGlue (ls : ListS) (x : F) (sign : Int) (totals : Totals)
    (errMsg : String) : ListS :=
  let _ := errMsg
  let o := glueOrder totals
  let g := { ls.glue with sign := sign, order := o, ratio := x.div (totals.get o) }
  { ls with glue := g }

/-- `HList.hpack` on a list's own state and its children. -/
def ListS.hpack (ls : ListS) (children : List Node) (width : F)
    (additional : Bool) : ListS :=
  let a := hpackFold children PackAcc.init
  let ls1 := { ls with box := { ls.box with height := a.height, depth := a.depth } }
  let w := if additional then width.add a.width else width
  let ls2 := { ls1 with box := { ls1.box with width := w } }
  let x := w.sub a.width
  if x.beq (F.fin 0) then
    { ls2 with glue := { ls2.glue with sign := 0, order := 0, ratio := F.fin 0 } }
  else if (F.fin 0).blt x then
    ls2.setGlue x 1 a.stretch "overfull"
  else
    ls2.setGlue x (-1) a.shrink "underfull"

/-- `VList.vpack` on a list's own state and its children; `none` models
the panic on `Char`/`Accent` children.  `l` is the maximum depth. -/
def ListS.vpack (ls : ListS) (children : List Node) (height : F)
    (additional : Bool) (l : F) : Option ListS :=
  match vpackFold children PackAcc.init with
  | none => none
  | some a =>
    let ls1 := { ls with box := { ls.box with width := a.width } }
    let x := if l.blt a.depth then a.height.add (a.depth.sub l) else a.height
    let ls2 :=
      if l.blt a.depth then { ls1 with box := { ls1.box with depth := l } }
      else { ls1 with box := { ls1.box with depth := a.depth } }
    let h := if additional then height.add x else height
    let ls3 := { ls2 with box := { ls2.box with height := h } }
    let x2 := h.sub x
    some (if x2.beq (F.fin 0) then
      { ls3 with glue := { ls3.glue with sign := 0, order := 0, ratio := F.fin 0 } }
    else if (F.fin 0).blt x2 then
      ls3.setGlue x2 1 a.stretch "overfull"
    else
      ls3.setGlue x2 (-1) a.shrink "underfull")

/-- The zero-valued `List` produced by `ListOf` (children are carried
separately by the `Node` constructors). -/
def ListS.zero : ListS :=
  { box := ⟨0, F.fin 0, F.fin 0, F.fin 0⟩,
    shift := F.fin 0,
    glue := { set := F.fin 0, sign := 0, order := 0, ratio := F.fin 0 } }

/-- `Box.Shrink`: decrement `size`; scale only when the decremented
`size` is below `NUM_SIZE_LEVELS`. -/
def BoxS.shrinkStep (b : BoxS) : BoxS :=
  let sz := b.size - 1
  if NUM_SIZE_LEVELS ≤ sz then { b with size := sz }
  else { b with size := sz,
                width := b.width.mulQ SHRINK_FACTOR,
                height := b.height.mulQ SHRINK_FACTOR,
                depth := b.depth.mulQ SHRINK_FACTOR }

/-- `Box.Grow`: increment `size` and scale unconditionally. -/
def BoxS.growStep (b : BoxS) : BoxS :=
  { b with size := b.size + 1,
           width := b.width.mulQ GROW_FACTOR,
           height := b.height.mulQ GROW_FACTOR,
           depth := b.depth.mulQ GROW_FACTOR }

/-- `Char.Shrink` (also scales the font size). -/
def CharS.shrinkStep (c : CharS) : CharS :=
  let sz := c.size - 1
  if NUM_SIZE_LEVELS ≤ sz then { c with size := sz }
  else { c with size := sz,
                fontSize := c.fontSize.mulQ SHRINK_FACTOR,
                width := c.width.mulQ SHRINK_FACTOR,
                height := c.height.mulQ SHRINK_FACTOR,
                depth := c.depth.mulQ SHRINK_FACTOR }

/-- `Char.Grow`. -/
def CharS.growStep (c : CharS) : CharS :=
  { c with size := c.size + 1,
           fontSize := c.fontSize.mulQ GROW_FACTOR,
           width := c.width.mulQ GROW_FACTOR,
           height := c.height.mulQ GROW_FACTOR,
           depth := c.depth.mulQ GROW_FACTOR }

/-- The non-recursive part of `List.Shrink`: after the children have
shrunk, shrink the own box, and scale `shift` and `glue.set` when the
decremented size is below `NUM_SIZE_LEVELS`. -/
def ListS.shrinkStep (ls : ListS) : ListS :=
  let b := ls.box.shrinkStep
  if b.size < NUM_SIZE_LEVELS then
    { ls with box := b,
              shift := ls.shift.mulQ SHRINK_FACTOR,
              glue := { ls.glue with set := ls.glue.set.mulQ SHRINK_FACTOR } }
  else { ls with box := b }

/-- The non-recursive part of `List.Grow`: grow the own box and scale
`shift` and `glue.set` unconditionally. -/
def ListS.growStep (ls : ListS) : ListS :=
  { ls with box := ls.box.growStep,
            shift := ls.shift.mulQ GROW_FACTOR,
            glue := { ls.glue with set := ls.glue.set.mulQ GROW_FACTOR } }

/-- `Glue.Shrink` (scales the natural width only). -/
def GlueS.shrinkStep (g : GlueS) : GlueS :=
  let sz := g.size - 1
  if NUM_SIZE_LEVELS ≤ sz then { g with size := sz }
  else { g with size := sz, width := g.width.mulQ SHRINK_FACTOR }

/-- `Glue.Grow`. -/
def GlueS.growStep (g : GlueS) : GlueS :=
  { g with size := g.size + 1, width := g.width.mulQ GROW_FACTOR }

/-- `Kern.Shrink`. -/
def KernS.shrinkStep (k : KernS) : KernS :=
  let sz := k.size - 1
  if NUM_SIZE_LEVELS ≤ sz then { k with size := sz }
  else { k with size := sz, width := k.width.mulQ SHRINK_FACTOR }

/-- `Kern.Grow`. -/
def KernS.growStep (k : KernS) : KernS :=
  { k with size := k.size + 1, width := k.width.mulQ GROW_FACTOR }

/-- `VBox.Shrink`. -/
def vboxShrink (sz : Int) (h d : F) : Node :=
  let sz2 := sz - 1
  if NUM_SIZE_LEVELS ≤ sz2 then .vbox sz2 h d
  else .vbox sz2 (h.mulQ SHRINK_FACTOR) (d.mulQ SHRINK_FACTOR)

/-- `HBox.Shrink`. -/
def hboxShrink (sz : Int) (w : F) : Node :=
  let sz2 := sz - 1
  if NUM_SIZE_LEVELS ≤ sz2 then .hbox sz2 w
  else .hbox sz2 (w.mulQ SHRINK_FACTOR)

mutual

/-- `Node.Shrink` across all node kinds.  `Accent.Shrink` shrinks the
wrapped char and then calls `updateMetrics`; modelled from the spec:
`updateMetrics` is an unimplemented stub in the source and the Go
`Accent` carries no metric field besides its `Char`, so the
accent-specific metric recomputation of spec §3 is the identity here. -/
def Node.shrink : Node → Node
  | .box b => .box b.shrinkStep
  | .vbox sz h d => vboxShrink sz h d
  | .hbox sz w => hboxShrink sz w
  | .char c => .char c.shrinkStep
  | .accent c => .accent c.shrinkStep
  | .list ls ch => .list ls.shrinkStep (Node.shrinkAll ch)
  | .hlist ls ch => .hlist ls.shrinkStep (Node.shrinkAll ch)
  | .vlist ls ch => .vlist ls.shrinkStep (Node.shrinkAll ch)
  | .rule b => .rule b.shrinkStep
  | .hrule b => .hrule b.shrinkStep
  | .vrule b => .vrule b.shrinkStep
  | .glue g => .glue g.shrinkStep
  | .kern k => .kern k.shrinkStep

/-- `List.Shrink` recurses into every child. -/
def Node.shrinkAll : List Node → List Node
  | [] => []
  | n :: ns => n.shrink :: Node.shrinkAll ns

end

mutual

/-- `Node.Grow` across all node kinds (`Accent.Grow` as for shrink). -/
def Node.grow : Node → Node
  | .box b => .box b.growStep
  | .vbox sz h d => .vbox (sz + 1) (h.mulQ GROW_FACTOR) (d.mulQ GROW_FACTOR)
  | .hbox sz w => .hbox (sz + 1) (w.mulQ GROW_FACTOR)
  | .char c => .char c.growStep
  | .accent c => .accent c.growStep
  | .list ls ch => .list ls.growStep (Node.growAll ch)
  | .hlist ls ch => .hlist ls.growStep (Node.growAll ch)
  | .vlist ls ch => .vlist ls.growStep (Node.growAll ch)
  | .rule b => .rule b.growStep
  | .hrule b => .hrule b.growStep
  | .vrule b => .vrule b.growStep
  | .glue g => .glue g.growStep
  | .kern k => .kern k.growStep

/-- `List.Grow` recurses into every child. -/
def Node.growAll : List Node → List Node
  | [] => []
  | n :: ns => n.grow :: Node.growAll ns

end

/-- The node's own `size` counter (for a list, the counter of its own
box; for an accent, the wrapped char's). -/
def Node.sizeCtr : Node → Int
  | .box b => b.size
  | .vbox sz _ _ => sz
  | .hbox sz _ => sz
  | .char c => c.size
  | .accent c => c.size
  | .list ls _ => ls.box.size
  | .hlist ls _ => ls.box.size
  | .vlist ls _ => ls.box.size
  | .rule b => b.size
  | .hrule b => b.size
  | .vrule b => b.size
  | .glue g => g.size
  | .kern k => k.size

mutual

/-- Every `size` counter in the tree is at most `k`. -/
def Node.sizesLe (k : Int) : Node → Bool
  | .box b => decide (b.size ≤ k)
  | .vbox sz _ _ => decide (sz ≤ k)
  | .hbox sz _ => decide (sz ≤ k)
  | .char c => decide (c.size ≤ k)
  | .accent c => decide (c.size ≤ k)
  | .list ls ch => decide (ls.box.size ≤ k) && Node.sizesLeAll k ch
  | .hlist ls ch => decide (ls.box.size ≤ k) && Node.sizesLeAll k ch
  | .vlist ls ch => decide (ls.box.size ≤ k) && Node.sizesLeAll k ch
  | .rule b => decide (b.size ≤ k)
  | .hrule b => decide (b.size ≤ k)
  | .vrule b => decide (b.size ≤ k)
  | .glue g => decide (g.size ≤ k)
  | .kern k2 => decide (k2.size ≤ k)

def Node.sizesLeAll (k : Int) : List Node → Bool
  | [] => true
  | n :: ns => Node.sizesLe k n && Node.sizesLeAll k ns

end

/-- `Node.Kerning`, parametrised by the character-pair metric.  Every
node kind of the source returns `0` except `Char` (and `Accent`, which
delegates to its char).  Modelled from the spec: `Char.Kerning` is an
unimplemented stub in the source (`panic("not implemented")`) because it
must consult font metrics, which spec §4.3 declares out of scope ("this
core defines the contract, not the metric source"); the metric is
therefore an arbitrary oracle `ck`. -/
def Node.kerning (ck : CharS → Node → F) : Node → Node → F
  | .char c, next => ck c next
  | .accent c, next => ck c next
  | _, _ => F.fin 0

/-- `NewKern`. -/
def NewKern (width : F) : Node := .kern ⟨0, width⟩

/-- `HList.kern`: walk the children; after each child that has a
successor, splice in a `Kern` node exactly when the child's kerning to
that successor is non-zero (IEEE `!=`). -/
def kernSplice (ck : CharS → Node → F) : List Node → List Node
  | [] => []
  | [a] => [a]
  | a :: b :: rest =>
      let dist := a.kerning ck b
      if dist.beq (F.fin 0) then a :: kernSplice ck (b :: rest)
      else a :: NewKern dist :: kernSplice ck (b :: rest)

/-- `HListOf`: start from the zero list state, optionally splice kerns,
then `hpack(0, additional=true)`. -/
def HListOf (ck : CharS → Node → F) (elements : List Node)
    (doKern : Bool) : Node :=
  let ch := if doKern then kernSplice ck elements else elements
  .hlist (ListS.zero.hpack ch (F.fin 0) true) ch

/-- `VListOf`: start from the zero list state and
`vpack(0, additional=true, maxDepth=+Inf)`; `none` models the panic on
`Char`/`Accent` children. -/
def VListOf (elements : List Node) : Option Node :=
  match ListS.zero.vpack elements (F.fin 0) true F.pinf with
  | none => none
  | some ls => some (.vlist ls elements)

/-- `newGlue`. -/
def newGlue (w st : F) (sto : Fin 4) (sh : F) (sho : Fin 4) : GlueS :=
  { size := 0, width := w, stretch := st, stretchOrder := sto,
    shrink := sh, shrinkOrder := sho }

/-- `NewGlue`: the eight recognised glue specs; `none` models the panic
on any other string. -/
def NewGlue (typ : String) : Option GlueS :=
  if typ = "fil" then some (newGlue (F.fin 0) (F.fin 1) 1 (F.fin 0) 0)
  else if typ = "fill" then some (newGlue (F.fin 0) (F.fin 1) 2 (F.fin 0) 0)
  else if typ = "filll" then some (newGlue (F.fin 0) (F.fin 1) 3 (F.fin 0) 0)
  else if typ = "neg_fil" then some (newGlue (F.fin 0) (F.fin 0) 0 (F.fin 1) 1)
  else if typ = "neg_fill" then some (newGlue (F.fin 0) (F.fin 0) 0 (F.fin 1) 2)
  else if typ = "neg_filll" then some (newGlue (F.fin 0) (F.fin 0) 0 (F.fin 1) 3)
  else if typ = "empty" then some (newGlue (F.fin 0) (F.fin 0) 0 (F.fin 0) 0)
  else if typ = "ss" then some (newGlue (F.fin 0) (F.fin 1) 1 (F.fin (-1)) 1)
  else none

/-- A child on which `vpackDims` panics ("Char node in VList" /
"Accent node in VList"). -/
def Node.isCharOrAccent : Node → Bool
  | .char _ => true
  | .accent _ => true
  | _ => false

/-- The `ListS` of a list-kind node (`ListS.zero` for the others; only
used on `HListOf`/`VListOf` results, which are list-kind). -/
def Node.listData : Node → ListS
  | .list ls _ => ls
  | .hlist ls _ => ls
  | .vlist ls _ => ls
  | _ => ListS.zero

/-- The children of a list-kind node. -/
def Node.childrenOf : Node → List Node
  | .list _ ch => ch
  | .hlist _ ch => ch
  | .vlist _ ch => ch
  | _ => []

/-- A child whose own height or depth is infinite.  Kinds with neither
height nor depth (`HBox`, `Glue`, `Kern`) are never infinite here;
`Char`/`Accent` metrics are finite by the spec's data-model invariant
(taken as a hypothesis where needed, since their `hpackDims` carries no
infinity check in the source). -/
def Node.hasInfHD : Node → Bool
  | .box b => b.height.isInf || b.depth.isInf
  | .vbox _ h d => h.isInf || d.isInf
  | .char c => c.height.isInf || c.depth.isInf
  | .accent c => c.height.isInf || c.depth.isInf
  | .list ls _ => ls.box.height.isInf || ls.box.depth.isInf
  | .hlist ls _ => ls.box.height.isInf || ls.box.depth.isInf
  | .vlist ls _ => ls.box.height.isInf || ls.box.depth.isInf
  | .rule b => b.height.isInf || b.depth.isInf
  | .hrule b => b.height.isInf || b.depth.isInf
  | .vrule b => b.height.isInf || b.depth.isInf
  | _ => false

/-- A `Char`/`Accent` node with finite height and depth; `true` for all
other kinds. -/
def charNodeFinite : Node → Bool
  | .char c => !(c.height.isInf || c.depth.isInf)
  | .accent c => !(c.height.isInf || c.depth.isInf)
  | _ => true

/-- Every `Char`/`Accent` in the list has finite height and depth (the
spec's invariant: all dimension fields are finite except a `Rule`'s). -/
def charDimsFinite (ch : List Node) : Bool :=
  ch.all charNodeFinite

/-- The height/depth components of each node's `hpackDims` contribution,
in isolation. -/
def hpackHD : Node → F × F → F × F
  | .box b, (h, d) =>
      if b.height.isInf || b.depth.isInf then (h, d)
      else (h.max b.height, d.max b.depth)
  | .vbox _ bh bd, (h, d) =>
      if bh.isInf || bd.isInf then (h, d) else (h.max bh, d.max bd)
  | .hbox _ _, p => p
  | .char c, (h, d) => (h.max c.height, d.max c.depth)
  | .accent c, (h, d) => (h.max c.height, d.max c.depth)
  | .list ls _, (h, d) =>
      if ls.box.height.isInf || ls.box.depth.isInf then (h, d)
      else (h.max (ls.box.height.sub ls.shift), d.max (ls.box.depth.add ls.shift))
  | .hlist ls _, (h, d) =>
      if ls.box.height.isInf || ls.box.depth.isInf then (h, d)
      else (h.max (ls.box.height.sub ls.shift), d.max (ls.box.depth.add ls.shift))
  | .vlist ls _, (h, d) =>
      if ls.box.height.isInf || ls.box.depth.isInf then (h, d)
      else (h.max (ls.box.height.sub ls.shift), d.max (ls.box.depth.add ls.shift))
  | .rule b, (h, d) =>
      if b.height.isInf || b.depth.isInf then (h, d)
      else (h.max b.height, d.max b.depth)
  | .hrule b, (h, d) =>
      if b.height.isInf || b.depth.isInf then (h, d)
      else (h.max b.height, d.max b.depth)
  | .vrule b, (h, d) =>
      if b.height.isInf || b.depth.isInf then (h, d)
      else (h.max b.height, d.max b.depth)
  | .glue _, p => p
  | .kern _, p => p

/-! ## Lemmas about the float model -/

theorem F.zero_add (x : F) : (F.fin 0).add x = x := by
  cases x <;> simp [F.add]

theorem F.shrink_grow_mulQ (x : F) :
    (x.mulQ SHRINK_FACTOR).mulQ GROW_FACTOR = x := by
  cases x <;> norm_num [F.mulQ, SHRINK_FACTOR, GROW_FACTOR]
  ring

/-! ## C2: the packed width of `hpack` -/

/-- C2: for every list and children, `hpack(width, additional)` sets the
box width to exactly `width` when `additional` is false, and to the
accumulated natural width plus `width` when it is true — in both cases
regardless of the children's stretch/shrink. -/
theorem C2_hpack_width (ls : ListS) (ch : List Node) (w : F) (add : Bool) :
    (ls.hpack ch w add).box.width =
      if add then w.add (hpackFold ch PackAcc.init).width else w := by
  unfold ListS.hpack
  dsimp only
  split_ifs <;> simp [ListS.setGlue]

/-! ## C10: the `NewGlue` constructor -/

/-- C10: `NewGlue` succeeds exactly for the eight spec strings and fails
(panics, modelled by `none`) for every other input; `"fil"`, `"fill"`,
`"filll"` give zero natural width, stretch amount 1 at stretch order
1, 2, 3 respectively, and zero shrink. -/
theorem C10_NewGlue :
    (∀ typ : String, (NewGlue typ).isSome = true ↔
      (typ = "fil" ∨ typ = "fill" ∨ typ = "filll" ∨ typ = "neg_fil" ∨
       typ = "neg_fill" ∨ typ = "neg_filll" ∨ typ = "empty" ∨ typ = "ss")) ∧
    NewGlue "fil" = some { size := 0, width := F.fin 0, stretch := F.fin 1,
                           stretchOrder := 1, shrink := F.fin 0, shrinkOrder := 0 } ∧
    NewGlue "fill" = some { size := 0, width := F.fin 0, stretch := F.fin 1,
                            stretchOrder := 2, shrink := F.fin 0, shrinkOrder := 0 } ∧
    NewGlue "filll" = some { size := 0, width := F.fin 0, stretch := F.fin 1,
                             stretchOrder := 3, shrink := F.fin 0, shrinkOrder := 0 } := by
  refine ⟨fun typ => ?_, rfl, rfl, rfl⟩
  unfold NewGlue
  split_ifs <;> simp_all

/-! ## C9: `vpack` is undefined exactly on `Char`/`Accent` children -/

theorem vpackFold_none_iff (ch : List Node) :
    ∀ a : PackAcc, (vpackFold ch a = none ↔ ch.any Node.isCharOrAccent = true) := by
  induction ch with
  | nil => intro a; simp [vpackFold]
  | cons n ns ih =>
      intro a
      cases n <;> simp [vpackFold, Node.vpackDims, Node.isCharOrAccent, ih]

/-- C9: vertical packing is not total — `vpack` (and hence `VListOf`)
fails exactly when some child is a `Char` or an `Accent` node (the
source's "Char node in VList" / "Accent node in VList" panics), and on
no other node kind. -/
theorem C9_vpack_char_accent :
    (∀ (ls : ListS) (ch : List Node) (h : F) (add : Bool) (l : F),
      (ls.vpack ch h add l = none ↔ ch.any Node.isCharOrAccent = true)) ∧
    (∀ ch : List Node,
      (VListOf ch = none ↔ ch.any Node.isCharOrAccent = true)) := by
  have hv : ∀ (ls : ListS) (ch : List Node) (h : F) (add : Bool) (l : F),
      (ls.vpack ch h add l = none ↔ ch.any Node.isCharOrAccent = true) := by
    intro ls ch h add l
    unfold ListS.vpack
    rcases hfold : vpackFold ch PackAcc.init with _ | a
    · simpa [hfold] using (vpackFold_none_iff ch PackAcc.init).mp hfold
    · have := (vpackFold_none_iff ch PackAcc.init)
      simp [hfold] at this
      simpa using this
  refine ⟨hv, fun ch => ?_⟩
  unfold VListOf
  rcases hp : ListS.zero.vpack ch (F.fin 0) true F.pinf with _ | ls
  · simpa [hp] using (hv ListS.zero ch (F.fin 0) true F.pinf).mp hp
  · have := hv ListS.zero ch (F.fin 0) true F.pinf
    simp [hp] at this
    simpa using this

/-! ## C4: the size-level floor is inverted in the code

The claim (and the source's own doc comments: "There are only three
levels of sizes, after which things will no longer get smaller", "beyond
which they will not get any smaller") says that once `size` reaches
`NUM_SIZE_LEVELS` further `Shrink` calls stop scaling the dimensions.
The implementation decrements `size` and then skips scaling when the
decremented counter is `≥ NUM_SIZE_LEVELS`: scaling is skipped only at
counters above the constant (reachable only by growing), and a node
shrunk from its constructed size 0 keeps scaling forever. -/

/-- C4 (evaluation at the failing input): a `Box` at `size = 6` — the
claimed floor — still has its dimensions scaled by a further `Shrink`,
while a `Box` at `size = 7` (grown past the constant) is *not* scaled,
and a fresh `Box` shrunk seven times keeps scaling without floor. -/
theorem C4_shrink_floor_eval :
    Node.shrink (.box ⟨6, F.fin 1, F.fin 1, F.fin 1⟩) =
      .box ⟨5, F.fin (7/10), F.fin (7/10), F.fin (7/10)⟩ ∧
    Node.shrink (.box ⟨7, F.fin 1, F.fin 1, F.fin 1⟩) =
      .box ⟨6, F.fin 1, F.fin 1, F.fin 1⟩ ∧
    Node.shrink^[7] (.box ⟨0, F.fin 1, F.fin 1, F.fin 1⟩) =
      .box ⟨-7, F.fin ((7/10)^7), F.fin ((7/10)^7), F.fin ((7/10)^7)⟩ := by
  refine ⟨?_, ?_, ?_⟩
  · norm_num [Node.shrink, BoxS.shrinkStep, NUM_SIZE_LEVELS, F.mulQ, SHRINK_FACTOR]
  · simp [Node.shrink, BoxS.shrinkStep, NUM_SIZE_LEVELS]
  · norm_num [Function.iterate_succ, Function.iterate_zero, Node.shrink,
      BoxS.shrinkStep, NUM_SIZE_LEVELS, F.mulQ, SHRINK_FACTOR]

/-! ## C3: `Shrink` then `Grow` -/

/-- C3 (counterexample): at `size = 7` (after seven `Grow` calls)
`Shrink` skips the scaling but `Grow` still scales, so the round trip
multiplies the width by `10/7` — far outside the claimed `1e-9`
relative tolerance. -/
theorem C3_shrink_grow_counterexample :
    Node.grow (Node.shrink (.box ⟨7, F.fin 1, F.fin 0, F.fin 0⟩)) =
      .box ⟨7, F.fin (10/7), F.fin 0, F.fin 0⟩ ∧
    ¬ (|(10/7 : ℚ) - 1| ≤ (1 / 10 ^ 9) * |(1 : ℚ)|) := by
  constructor
  · norm_num [Node.shrink, Node.grow, BoxS.shrinkStep, BoxS.growStep,
      NUM_SIZE_LEVELS, GROW_FACTOR, F.mulQ]
  · rw [abs_of_pos (by norm_num), abs_of_pos (by norm_num)]
    norm_num

theorem BoxS.shrink_grow_box (b : BoxS) (h : b.size ≤ NUM_SIZE_LEVELS) :
    b.shrinkStep.growStep = b := by
  obtain ⟨sz, w, ht, d⟩ := b
  simp only [NUM_SIZE_LEVELS] at h
  simp only [BoxS.shrinkStep, BoxS.growStep, NUM_SIZE_LEVELS]
  rw [if_neg (by omega)]
  simp [F.shrink_grow_mulQ]

theorem CharS.shrink_grow_char (c : CharS) (h : c.size ≤ NUM_SIZE_LEVELS) :
    c.shrinkStep.growStep = c := by
  obtain ⟨cc, sz, w, ht, d, fs, dpi, m⟩ := c
  simp only [NUM_SIZE_LEVELS] at h
  simp only [CharS.shrinkStep, CharS.growStep, NUM_SIZE_LEVELS]
  rw [if_neg (by omega)]
  simp [F.shrink_grow_mulQ]

theorem ListS.shrink_grow_list (ls : ListS) (h : ls.box.size ≤ NUM_SIZE_LEVELS) :
    ls.shrinkStep.growStep = ls := by
  obtain ⟨b, sh, g⟩ := ls
  simp only [NUM_SIZE_LEVELS] at h
  have hb : b.shrinkStep.size = b.size - 1 := by
    simp only [BoxS.shrinkStep]
    split <;> rfl
  simp only [ListS.shrinkStep, ListS.growStep]
  rw [if_pos (by simp only [hb, NUM_SIZE_LEVELS]; omega)]
  simp only
  rw [BoxS.shrink_grow_box b (by simp only [NUM_SIZE_LEVELS]; omega)]
  simp [F.shrink_grow_mulQ]

theorem GlueS.shrink_grow_glue (g : GlueS) (h : g.size ≤ NUM_SIZE_LEVELS) :
    g.shrinkStep.growStep = g := by
  obtain ⟨sz, w, st, sto, sh, sho⟩ := g
  simp only [NUM_SIZE_LEVELS] at h
  simp only [GlueS.shrinkStep, GlueS.growStep, NUM_SIZE_LEVELS]
  rw [if_neg (by omega)]
  simp [F.shrink_grow_mulQ]

theorem KernS.shrink_grow_kern (k : KernS) (h : k.size ≤ NUM_SIZE_LEVELS) :
    k.shrinkStep.growStep = k := by
  obtain ⟨sz, w⟩ := k
  simp only [NUM_SIZE_LEVELS] at h
  simp only [KernS.shrinkStep, KernS.growStep, NUM_SIZE_LEVELS]
  rw [if_neg (by omega)]
  simp [F.shrink_grow_mulQ]

theorem vbox_shrink_grow (sz : Int) (h d : F) (hs : sz ≤ NUM_SIZE_LEVELS) :
    Node.grow (vboxShrink sz h d) = .vbox sz h d := by
  simp only [NUM_SIZE_LEVELS] at hs
  simp only [vboxShrink, NUM_SIZE_LEVELS]
  rw [if_neg (by omega)]
  simp [Node.grow, F.shrink_grow_mulQ]

theorem hbox_shrink_grow (sz : Int) (w : F) (hs : sz ≤ NUM_SIZE_LEVELS) :
    Node.grow (hboxShrink sz w) = .hbox sz w := by
  simp only [NUM_SIZE_LEVELS] at hs
  simp only [hboxShrink, NUM_SIZE_LEVELS]
  rw [if_neg (by omega)]
  simp [Node.grow, F.shrink_grow_mulQ]

mutual

theorem shrink_grow_node : ∀ n : Node,
    Node.sizesLe NUM_SIZE_LEVELS n = true → Node.grow (Node.shrink n) = n
  | .box b, h => by
      simp only [Node.sizesLe, decide_eq_true_eq] at h
      simp only [Node.shrink, Node.grow]
      rw [BoxS.shrink_grow_box b h]
  | .vbox sz ht d, h => by
      simp only [Node.sizesLe, decide_eq_true_eq] at h
      simp only [Node.shrink]
      exact vbox_shrink_grow sz ht d h
  | .hbox sz w, h => by
      simp only [Node.sizesLe, decide_eq_true_eq] at h
      simp only [Node.shrink]
      exact hbox_shrink_grow sz w h
  | .char c, h => by
      simp only [Node.sizesLe, decide_eq_true_eq] at h
      simp only [Node.shrink, Node.grow]
      rw [CharS.shrink_grow_char c h]
  | .accent c, h => by
      simp only [Node.sizesLe, decide_eq_true_eq] at h
      simp only [Node.shrink, Node.grow]
      rw [CharS.shrink_grow_char c h]
  | .list ls ch, h => by
      simp only [Node.sizesLe, Bool.and_eq_true, decide_eq_true_eq] at h
      simp only [Node.shrink, Node.grow]
      rw [ListS.shrink_grow_list ls h.1, shrink_grow_children ch h.2]
  | .hlist ls ch, h => by
      simp only [Node.sizesLe, Bool.and_eq_true, decide_eq_true_eq] at h
      simp only [Node.shrink, Node.grow]
      rw [ListS.shrink_grow_list ls h.1, shrink_grow_children ch h.2]
  | .vlist ls ch, h => by
      simp only [Node.sizesLe, Bool.and_eq_true, decide_eq_true_eq] at h
      simp only [Node.shrink, Node.grow]
      rw [ListS.shrink_grow_list ls h.1, shrink_grow_children ch h.2]
  | .rule b, h => by
      simp only [Node.sizesLe, decide_eq_true_eq] at h
      simp only [Node.shrink, Node.grow]
      rw [BoxS.shrink_grow_box b h]
  | .hrule b, h => by
      simp only [Node.sizesLe, decide_eq_true_eq] at h
      simp only [Node.shrink, Node.grow]
      rw [BoxS.shrink_grow_box b h]
  | .vrule b, h => by
      simp only [Node.sizesLe, decide_eq_true_eq] at h
      simp only [Node.shrink, Node.grow]
      rw [BoxS.shrink_grow_box b h]
  | .glue g, h => by
      simp only [Node.sizesLe, decide_eq_true_eq] at h
      simp only [Node.shrink, Node.grow]
      rw [GlueS.shrink_grow_glue g h]
  | .kern k, h => by
      simp only [Node.sizesLe, decide_eq_true_eq] at h
      simp only [Node.shrink, Node.grow]
      rw [KernS.shrink_grow_kern k h]

theorem shrink_grow_children : ∀ ns : List Node,
    Node.sizesLeAll NUM_SIZE_LEVELS ns = true →
    Node.growAll (Node.shrinkAll ns) = ns
  | [], _ => rfl
  | n :: ns, h => by
      simp only [Node.sizesLeAll, Bool.and_eq_true] at h
      simp only [Node.shrinkAll, Node.growAll]
      rw [shrink_grow_node n h.1, shrink_grow_children ns h.2]

end

/-- C3 (amended): `Shrink` then `Grow` restores every node field exactly
— dimensions, and for lists the shift and glue set amount — provided
every `size` counter in the tree is at most `NUM_SIZE_LEVELS` (all nodes
are constructed at size 0, and shrinking only decreases the counter, so
this covers every state not preceded by seven or more `Grow` calls).
Exact equality is stronger than the claimed `1e-9` relative tolerance.
The unamended claim fails at counters above `NUM_SIZE_LEVELS`, where
`Shrink` skips the scaling but `Grow` still scales
(`C3_shrink_grow_counterexample`). -/
theorem C3_shrink_grow_amended (n : Node)
    (h : Node.sizesLe NUM_SIZE_LEVELS n = true) :
    Node.grow (Node.shrink n) = n :=
  shrink_grow_node n h

/-- Witness for `C3_shrink_grow_amended` at a concrete two-child list. -/
theorem C3_shrink_grow_amended_witness :
    Node.sizesLe NUM_SIZE_LEVELS
      (Node.list ListS.zero [.box ⟨0, F.fin 1, F.fin 2, F.fin 3⟩,
                             .kern ⟨0, F.fin (-1)⟩]) = true ∧
    Node.grow (Node.shrink
      (Node.list ListS.zero [.box ⟨0, F.fin 1, F.fin 2, F.fin 3⟩,
                             .kern ⟨0, F.fin (-1)⟩])) =
      Node.list ListS.zero [.box ⟨0, F.fin 1, F.fin 2, F.fin 3⟩,
                            .kern ⟨0, F.fin (-1)⟩] :=
  ⟨by rfl, C3_shrink_grow_amended _ (by rfl)⟩

/-! ## C1: glue setting at non-zero excess -/

/-- C1: whenever an `HList` (`hpack`) or `VList` (`vpack`) is packed
with a non-zero excess (final size minus natural size), the glue-setting
step selects the highest order of infinity with a non-zero stretch total
(positive excess) or shrink total (negative excess), keeps the given
sign, and sets the ratio to `excess / total` at that order — a ratio is
computed even when the totals are all zero (order defaults to 0 and the
IEEE division yields an infinite ratio).  Both packers are total
functions of their inputs (`vpack` is `some` whenever no `Char`/`Accent`
child occurs, cf. `C9`): packing never reports a recoverable error. -/
theorem C1_glue_setting :
    (∀ (ls : ListS) (ch : List Node) (w : F) (add : Bool) (a : PackAcc),
      a = hpackFold ch PackAcc.init →
      ∀ x, x = (if add then w.add a.width else w).sub a.width →
      ∀ t, t = (if (F.fin 0).blt x then a.stretch else a.shrink) →
      x.beq (F.fin 0) = false →
        (ls.hpack ch w add).glue.sign = (if (F.fin 0).blt x then 1 else -1) ∧
        (ls.hpack ch w add).glue.order = glueOrder t ∧
        (ls.hpack ch w add).glue.ratio = x.div (t.get (glueOrder t))) ∧
    (∀ (ls : ListS) (ch : List Node) (hh : F) (add : Bool) (l : F) (a : PackAcc),
      vpackFold ch PackAcc.init = some a →
      ∀ x, x = (if l.blt a.depth then a.height.add (a.depth.sub l) else a.height) →
      ∀ x2, x2 = (if add then hh.add x else hh).sub x →
      ∀ t, t = (if (F.fin 0).blt x2 then a.stretch else a.shrink) →
      x2.beq (F.fin 0) = false →
        ∃ r, ls.vpack ch hh add l = some r ∧
          r.glue.sign = (if (F.fin 0).blt x2 then 1 else -1) ∧
          r.glue.order = glueOrder t ∧
          r.glue.ratio = x2.div (t.get (glueOrder t))) := by
  constructor
  · intro ls ch w add a ha x hx t ht hnz
    subst ha hx ht
    unfold ListS.hpack
    dsimp only
    rw [if_neg (by simp [hnz])]
    by_cases hb : (F.fin 0).blt ((if add then w.add (hpackFold ch PackAcc.init).width else w).sub (hpackFold ch PackAcc.init).width) = true
    · rw [if_pos hb]
      simp [ListS.setGlue, hb]
    · simp only [Bool.not_eq_true] at hb
      rw [if_neg (by simp [hb])]
      simp [ListS.setGlue, hb]
  · intro ls ch hh add l a ha x hx x2 hx2 t ht hnz
    subst hx hx2 ht
    unfold ListS.vpack
    rw [ha]
    dsimp only
    rw [if_neg (by simp [hnz])]
    by_cases hb : (F.fin 0).blt ((if add then hh.add (if l.blt a.depth then a.height.add (a.depth.sub l) else a.height) else hh).sub (if l.blt a.depth then a.height.add (a.depth.sub l) else a.height)) = true
    · rw [if_pos hb]
      refine ⟨_, rfl, ?_⟩
      simp [ListS.setGlue, hb]
    · simp only [Bool.not_eq_true] at hb
      rw [if_neg (by simp [hb])]
      refine ⟨_, rfl, ?_⟩
      simp [ListS.setGlue, hb]

/-- Witness for `C1_glue_setting`: the spec §8 example (an `HBox` of
width 10 plus order-1 stretch 5, packed to width 20, gives sign 1,
order 1, ratio 2), and a `vpack` with positive excess 7 and no stretch
at all, which still computes a ratio (`+Inf` at order 0). -/
theorem C1_glue_setting_witness :
    ((ListS.zero.hpack [.hbox 0 (F.fin 10),
        .glue (newGlue (F.fin 0) (F.fin 5) 1 (F.fin 0) 0)] (F.fin 20) false).glue.sign = 1 ∧
     (ListS.zero.hpack [.hbox 0 (F.fin 10),
        .glue (newGlue (F.fin 0) (F.fin 5) 1 (F.fin 0) 0)] (F.fin 20) false).glue.order = 1 ∧
     (ListS.zero.hpack [.hbox 0 (F.fin 10),
        .glue (newGlue (F.fin 0) (F.fin 5) 1 (F.fin 0) 0)] (F.fin 20) false).glue.ratio = F.fin 2) ∧
    (∃ r, ListS.zero.vpack [.box ⟨0, F.fin 2, F.fin 3, F.fin 1⟩] (F.fin 10) false F.pinf = some r ∧
      r.glue.sign = 1 ∧ r.glue.order = 0 ∧ r.glue.ratio = F.pinf) := by
  constructor
  · have h := C1_glue_setting.1 ListS.zero
      [.hbox 0 (F.fin 10), .glue (newGlue (F.fin 0) (F.fin 5) 1 (F.fin 0) 0)]
      (F.fin 20) false _ rfl _ rfl _ rfl
      (by norm_num [hpackFold, Node.hpackDims, PackAcc.init, Totals.zero, newGlue,
        Totals.addAt, F.add, F.sub, F.neg, F.beq])
    refine ⟨?_, ?_, ?_⟩
    · rw [h.1]
      norm_num [hpackFold, Node.hpackDims, PackAcc.init, Totals.zero, newGlue,
        Totals.addAt, F.add, F.sub, F.neg, F.blt]
    · rw [h.2.1]
      norm_num [hpackFold, Node.hpackDims, PackAcc.init, Totals.zero, newGlue,
        Totals.addAt, F.add, F.sub, F.neg, F.blt, glueOrder, F.beq]
    · rw [h.2.2]
      norm_num [hpackFold, Node.hpackDims, PackAcc.init, Totals.zero, newGlue,
        Totals.addAt, F.add, F.sub, F.neg, F.blt, glueOrder, F.beq, F.div, Totals.get]
  · have h := C1_glue_setting.2 ListS.zero [.box ⟨0, F.fin 2, F.fin 3, F.fin 1⟩]
      (F.fin 10) false F.pinf _ rfl _ rfl _ rfl _ rfl
      (by norm_num [vpackFold, Node.vpackDims, boxVpackDims, PackAcc.init, Totals.zero,
        F.add, F.sub, F.neg, F.beq, F.blt, F.isInf, F.max])
    obtain ⟨r, hr, h1, h2, h3⟩ := h
    refine ⟨r, hr, ?_, ?_, ?_⟩
    · rw [h1]
      norm_num [vpackFold, Node.vpackDims, boxVpackDims, PackAcc.init, Totals.zero,
        F.add, F.sub, F.neg, F.beq, F.blt, F.isInf, F.max]
    · rw [h2]
      norm_num [vpackFold, Node.vpackDims, boxVpackDims, PackAcc.init, Totals.zero,
        F.add, F.sub, F.neg, F.beq, F.blt, F.isInf, F.max, glueOrder]
    · rw [h3]
      norm_num [vpackFold, Node.vpackDims, boxVpackDims, PackAcc.init, Totals.zero,
        F.add, F.sub, F.neg, F.beq, F.blt, F.isInf, F.max, glueOrder, F.div, Totals.get]

/-! ## C8: zero excess packs to neutral glue -/

/-- C8: for both `hpack` and `vpack`, when the excess (requested size
minus natural size) is zero the packed glue state is fully neutral
(sign, order and ratio all 0); and a list with zero children, packed in
additional mode with zero extra size, packs to zero natural
width/height/depth with neutral glue. -/
theorem C8_neutral_glue :
    (∀ (ls : ListS) (ch : List Node) (w : F) (add : Bool),
      ((if add then w.add (hpackFold ch PackAcc.init).width else w).sub
          (hpackFold ch PackAcc.init).width).beq (F.fin 0) = true →
        (ls.hpack ch w add).glue.sign = 0 ∧
        (ls.hpack ch w add).glue.order = 0 ∧
        (ls.hpack ch w add).glue.ratio = F.fin 0) ∧
    (∀ (ls : ListS) (ch : List Node) (hh : F) (add : Bool) (l : F) (a : PackAcc),
      vpackFold ch PackAcc.init = some a →
      ∀ x, x = (if l.blt a.depth then a.height.add (a.depth.sub l) else a.height) →
      ((if add then hh.add x else hh).sub x).beq (F.fin 0) = true →
        ∃ r, ls.vpack ch hh add l = some r ∧
          r.glue.sign = 0 ∧ r.glue.order = 0 ∧ r.glue.ratio = F.fin 0) ∧
    (∀ ls : ListS, ls.hpack [] (F.fin 0) true =
      { ls with box := { size := ls.box.size, width := F.fin 0,
                         height := F.fin 0, depth := F.fin 0 },
                glue := { set := ls.glue.set, sign := 0, order := 0,
                          ratio := F.fin 0 } }) ∧
    (∀ ls : ListS, ls.vpack [] (F.fin 0) true F.pinf = some
      { ls with box := { size := ls.box.size, width := F.fin 0,
                         height := F.fin 0, depth := F.fin 0 },
                glue := { set := ls.glue.set, sign := 0, order := 0,
                          ratio := F.fin 0 } }) := by
  refine ⟨?_, ?_, ?_, ?_⟩
  · intro ls ch w add hz
    unfold ListS.hpack
    dsimp only
    rw [if_pos hz]
    exact ⟨rfl, rfl, rfl⟩
  · intro ls ch hh add l a ha x hx hz
    subst hx
    unfold ListS.vpack
    rw [ha]
    dsimp only
    rw [if_pos hz]
    exact ⟨_, rfl, rfl, rfl, rfl⟩
  · intro ls
    norm_num [ListS.hpack, hpackFold, PackAcc.init, Totals.zero,
      F.add, F.sub, F.neg, F.beq]
  · intro ls
    norm_num [ListS.vpack, vpackFold, PackAcc.init, Totals.zero,
      F.add, F.sub, F.neg, F.beq, F.blt]

/-- Witness for `C8_neutral_glue`: an `HBox` of width 5 packed to exactly
width 5, and a box of height 3/depth 1 vpacked to exactly its natural
height. -/
theorem C8_neutral_glue_witness :
    ((ListS.zero.hpack [.hbox 0 (F.fin 5)] (F.fin 5) false).glue.sign = 0 ∧
     (ListS.zero.hpack [.hbox 0 (F.fin 5)] (F.fin 5) false).glue.order = 0 ∧
     (ListS.zero.hpack [.hbox 0 (F.fin 5)] (F.fin 5) false).glue.ratio = F.fin 0) ∧
    (∃ r, ListS.zero.vpack [.box ⟨0, F.fin 2, F.fin 3, F.fin 1⟩] (F.fin 3) false F.pinf = some r ∧
      r.glue.sign = 0 ∧ r.glue.order = 0 ∧ r.glue.ratio = F.fin 0) := by
  constructor
  · exact C8_neutral_glue.1 ListS.zero [.hbox 0 (F.fin 5)] (F.fin 5) false
      (by norm_num [hpackFold, Node.hpackDims, PackAcc.init, Totals.zero,
        F.add, F.sub, F.neg, F.beq])
  · exact C8_neutral_glue.2.1 ListS.zero [.box ⟨0, F.fin 2, F.fin 3, F.fin 1⟩]
      (F.fin 3) false F.pinf _ rfl _ rfl
      (by norm_num [vpackFold, Node.vpackDims, boxVpackDims, PackAcc.init, Totals.zero,
        F.add, F.sub, F.neg, F.beq, F.blt, F.isInf, F.max])

theorem hpackDims_hd (n : Node) (a : PackAcc) :
    ((n.hpackDims a).height, (n.hpackDims a).depth) = hpackHD n (a.height, a.depth) := by
  cases n <;>
    simp only [Node.hpackDims, hpackHD, boxHpackDims, charHpackDims, listHpackDims] <;>
    split <;> rfl

theorem hpackFold_hd : ∀ (ch : List Node) (a : PackAcc),
    ((hpackFold ch a).height, (hpackFold ch a).depth) =
      ch.foldl (fun p n => hpackHD n p) (a.height, a.depth) := by
  intro ch
  induction ch with
  | nil => intro a; rfl
  | cons n ns ih =>
      intro a
      show ((hpackFold ns (n.hpackDims a)).height, (hpackFold ns (n.hpackDims a)).depth) = _
      rw [ih (n.hpackDims a)]
      simp only [List.foldl_cons]
      rw [← hpackDims_hd]

theorem hpackHD_id_of_inf (n : Node) (hn : n.hasInfHD = true)
    (hc : charNodeFinite n = true) (p : F × F) : hpackHD n p = p := by
  cases n with
  | box b =>
      simp only [Node.hasInfHD] at hn
      simp only [hpackHD]
      rw [if_pos hn]
  | vbox sz h d =>
      simp only [Node.hasInfHD] at hn
      simp only [hpackHD]
      rw [if_pos hn]
  | hbox sz w => rfl
  | char c =>
      simp only [Node.hasInfHD] at hn
      simp only [charNodeFinite, hn] at hc
      exact absurd hc (by simp)
  | accent c =>
      simp only [Node.hasInfHD] at hn
      simp only [charNodeFinite, hn] at hc
      exact absurd hc (by simp)
  | list ls ch => simp only [Node.hasInfHD] at hn; simp only [hpackHD]; rw [if_pos hn]
  | hlist ls ch => simp only [Node.hasInfHD] at hn; simp only [hpackHD]; rw [if_pos hn]
  | vlist ls ch => simp only [Node.hasInfHD] at hn; simp only [hpackHD]; rw [if_pos hn]
  | rule b => simp only [Node.hasInfHD] at hn; simp only [hpackHD]; rw [if_pos hn]
  | hrule b => simp only [Node.hasInfHD] at hn; simp only [hpackHD]; rw [if_pos hn]
  | vrule b => simp only [Node.hasInfHD] at hn; simp only [hpackHD]; rw [if_pos hn]
  | glue g => rfl
  | kern k => rfl

theorem hd_fold_filter : ∀ (ch : List Node), charDimsFinite ch = true →
    ∀ p : F × F,
    ch.foldl (fun p n => hpackHD n p) p =
      (ch.filter (fun n => !n.hasInfHD)).foldl (fun p n => hpackHD n p) p := by
  intro ch
  induction ch with
  | nil => intro _ p; rfl
  | cons n ns ih =>
      intro hc p
      simp only [charDimsFinite, List.all_cons, Bool.and_eq_true] at hc
      rcases hn : n.hasInfHD with _ | _
      · simp only [List.filter_cons, hn, Bool.not_false, if_pos rfl, List.foldl_cons]
        exact ih hc.2 (hpackHD n p)
      · simp only [List.filter_cons, hn, Bool.not_true, List.foldl_cons]
        rw [hpackHD_id_of_inf n hn hc.1]
        exact ih hc.2 p

/-! ## C6: children with an infinite height or depth "run" -/

/-- C6: during `hpack`, a child whose own height or depth is infinite
still adds its width to the accumulated natural width, but is excluded
from the running height/depth maxima: the fold's height and depth equal
those over only the finite-dimension children (`Char`/`Accent` metrics
are finite by hypothesis, per the spec's invariant), and the packed
list's box height/depth are exactly the fold's. -/
theorem C6_running_children (ch : List Node) (hc : charDimsFinite ch = true) :
    ((hpackFold ch PackAcc.init).height =
       (hpackFold (ch.filter (fun n => !n.hasInfHD)) PackAcc.init).height ∧
     (hpackFold ch PackAcc.init).depth =
       (hpackFold (ch.filter (fun n => !n.hasInfHD)) PackAcc.init).depth) ∧
    (∀ (b : BoxS) (a : PackAcc), (b.height.isInf || b.depth.isInf) = true →
       Node.hpackDims (.box b) a = { a with width := a.width.add b.width }) ∧
    (∀ (ls : ListS) (ch2 : List Node) (a : PackAcc),
       (ls.box.height.isInf || ls.box.depth.isInf) = true →
       Node.hpackDims (.list ls ch2) a = { a with width := a.width.add ls.box.width }) ∧
    (∀ (ls : ListS) (w : F) (add : Bool),
       (ls.hpack ch w add).box.height = (hpackFold ch PackAcc.init).height ∧
       (ls.hpack ch w add).box.depth = (hpackFold ch PackAcc.init).depth) := by
  refine ⟨?_, ?_, ?_, ?_⟩
  · have h1 := hpackFold_hd ch PackAcc.init
    have h2 := hpackFold_hd (ch.filter (fun n => !n.hasInfHD)) PackAcc.init
    have h3 := hd_fold_filter ch hc (PackAcc.init.height, PackAcc.init.depth)
    rw [h3] at h1
    rw [← h2] at h1
    exact ⟨congrArg Prod.fst h1, congrArg Prod.snd h1⟩
  · intro b a hb
    simp only [Node.hpackDims, boxHpackDims]
    rw [if_pos hb]
  · intro ls ch2 a hb
    simp only [Node.hpackDims, listHpackDims]
    rw [if_pos hb]
  · intro ls w add
    unfold ListS.hpack
    dsimp only
    split_ifs <;> simp [ListS.setGlue]

/-- Witness for C6 at a concrete list. -/
theorem C6_running_children_witness :
    charDimsFinite [Node.box ⟨0, F.fin 1, F.pinf, F.fin 0⟩,
                    Node.box ⟨0, F.fin 2, F.fin 3, F.fin 1⟩] = true ∧
    (hpackFold [Node.box ⟨0, F.fin 1, F.pinf, F.fin 0⟩,
                Node.box ⟨0, F.fin 2, F.fin 3, F.fin 1⟩] PackAcc.init).height =
      (hpackFold ([Node.box ⟨0, F.fin 1, F.pinf, F.fin 0⟩,
                   Node.box ⟨0, F.fin 2, F.fin 3, F.fin 1⟩].filter
        (fun n => !n.hasInfHD)) PackAcc.init).height := by
  refine ⟨by rfl, ?_⟩
  exact (C6_running_children _ (by rfl)).1.1

/-! ## C7: kern insertion before packing -/

/-- C7: when an `HList` is built with kerning enabled, each adjacent
pair of children queries the left child's `Kerning(right)` and splices a
`Kern` node of exactly that width between the pair exactly when the
returned amount is non-zero; the splicing happens before `hpack`, so the
constructed list's children are the spliced list, its natural width is
accumulated over the spliced list, and each `Kern` contributes its width
to that accumulation. -/
theorem C7_kern_insertion :
    (∀ (ck : CharS → Node → F) (a b : Node) (rest : List Node),
      kernSplice ck (a :: b :: rest) =
        (if (a.kerning ck b).beq (F.fin 0) then a :: kernSplice ck (b :: rest)
         else a :: NewKern (a.kerning ck b) :: kernSplice ck (b :: rest))) ∧
    (∀ (ck : CharS → Node → F) (a : Node), kernSplice ck [a] = [a]) ∧
    (∀ ck : CharS → Node → F, kernSplice ck [] = []) ∧
    (∀ (ck : CharS → Node → F) (elements : List Node),
      (HListOf ck elements true).childrenOf = kernSplice ck elements ∧
      (HListOf ck elements false).childrenOf = elements) ∧
    (∀ (ck : CharS → Node → F) (elements : List Node),
      (HListOf ck elements true).listData.box.width =
        (hpackFold (kernSplice ck elements) PackAcc.init).width) ∧
    (∀ (k : KernS) (acc : PackAcc),
      Node.hpackDims (.kern k) acc = { acc with width := acc.width.add k.width }) := by
  refine ⟨?_, ?_, ?_, ?_, ?_, ?_⟩
  · intro ck a b rest
    rfl
  · intro ck a; rfl
  · intro ck; rfl
  · intro ck elements
    constructor <;> rfl
  · intro ck elements
    show (ListS.zero.hpack (kernSplice ck elements) (F.fin 0) true).box.width = _
    unfold ListS.hpack
    dsimp only
    split_ifs <;> simp_all [ListS.setGlue, F.zero_add]
  · intro k acc; rfl


/-! ## C5: vpack accumulation and the depth clamp -/

theorem vpackFold_boxes : ∀ (bs : List BoxS) (a : PackAcc),
    vpackFold (bs.map Node.box) a = some (bs.foldl (fun a b => boxVpackDims b a) a) := by
  intro bs
  induction bs with
  | nil => intro a; rfl
  | cons b bs ih =>
      intro a
      simp only [List.map_cons, vpackFold, Node.vpackDims, List.foldl_cons]
      exact ih (boxVpackDims b a)

theorem foldl_boxV_width : ∀ (bs : List BoxS) (a : PackAcc),
    (bs.foldl (fun a b => boxVpackDims b a) a).width =
      bs.foldl (fun w b => if b.width.isInf then w else w.max b.width) a.width := by
  intro bs
  induction bs with
  | nil => intro a; rfl
  | cons b bs ih =>
      intro a
      simp only [List.foldl_cons]
      rw [ih (boxVpackDims b a)]
      rfl

theorem foldl_boxV_hd : ∀ (bs : List BoxS) (a : PackAcc),
    ((bs.foldl (fun a b => boxVpackDims b a) a).height,
     (bs.foldl (fun a b => boxVpackDims b a) a).depth) =
      bs.foldl (fun (p : F × F) b => (p.1.add (p.2.add b.height), b.depth))
        (a.height, a.depth) := by
  intro bs
  induction bs with
  | nil => intro a; rfl
  | cons b bs ih =>
      intro a
      simp only [List.foldl_cons]
      rw [ih (boxVpackDims b a)]
      rfl

/-- C5: over box children, `vpack` accumulates the list width as the
running maximum of the (non-infinite) child widths from 0, and the
height by summing each child's own height plus the previous child's
depth, carrying the depth forward (the carried pair fold below); when
the final carried depth exceeds `maxDepth` (`l`) the excess is added to
the height total and the packed depth is exactly `maxDepth`, otherwise
the packed depth is the carried depth. -/
theorem C5_vpack_dims (ls : ListS) (bs : List BoxS) (hh : F) (add : Bool) (l : F) :
    ∃ r, ls.vpack (bs.map Node.box) hh add l = some r ∧
      r.box.width =
        bs.foldl (fun w b => if b.width.isInf then w else w.max b.width) (F.fin 0) ∧
      (if l.blt (bs.foldl (fun (p : F × F) b => (p.1.add (p.2.add b.height), b.depth))
            (F.fin 0, F.fin 0)).2 then
        r.box.depth = l ∧
        r.box.height = (if add then hh.add
          ((bs.foldl (fun (p : F × F) b => (p.1.add (p.2.add b.height), b.depth))
              (F.fin 0, F.fin 0)).1.add
           ((bs.foldl (fun (p : F × F) b => (p.1.add (p.2.add b.height), b.depth))
              (F.fin 0, F.fin 0)).2.sub l)) else hh)
      else
        r.box.depth = (bs.foldl (fun (p : F × F) b => (p.1.add (p.2.add b.height), b.depth))
            (F.fin 0, F.fin 0)).2 ∧
        r.box.height = (if add then hh.add
          (bs.foldl (fun (p : F × F) b => (p.1.add (p.2.add b.height), b.depth))
              (F.fin 0, F.fin 0)).1 else hh)) := by
  unfold ListS.vpack
  rw [vpackFold_boxes bs PackAcc.init]
  dsimp only
  have hw := foldl_boxV_width bs PackAcc.init
  have hhd := foldl_boxV_hd bs PackAcc.init
  have hh1 : (bs.foldl (fun a b => boxVpackDims b a) PackAcc.init).height =
      (bs.foldl (fun (p : F × F) b => (p.1.add (p.2.add b.height), b.depth))
        (F.fin 0, F.fin 0)).1 := congrArg Prod.fst hhd
  have hd1 : (bs.foldl (fun a b => boxVpackDims b a) PackAcc.init).depth =
      (bs.foldl (fun (p : F × F) b => (p.1.add (p.2.add b.height), b.depth))
        (F.fin 0, F.fin 0)).2 := congrArg Prod.snd hhd
  refine ⟨_, rfl, ?_, ?_⟩
  · split_ifs <;> simp_all [ListS.setGlue, PackAcc.init]
  · rw [hd1, hh1]
    split_ifs <;> simp_all [ListS.setGlue, PackAcc.init]


end Tex
